import Mathlib

set_option linter.unnecessarySeqFocus false

/-!
Verification of the zapstack relay client and event-aggregation engine
(`src/app/services/nostr.service.ts`) against its natural-language
specification.

The embedding below translates the service's pure logic into Lean:
events are records, relay responses are explicit inputs (the relay is an
external collaborator), JavaScript exceptions are `Except` values, and
JavaScript numbers are exact rationals.  Each claim of the specification
is then stated and settled as a theorem about these definitions.
-/

/-- A nostr event as used by the service: `id` (content hash), `pubkey`
(author), `created_at` (unix seconds), `kind`, `tags` (list of lists of
strings, first element of a tag is its name), `content`, and `sig`. -/
structure NEvent where
  id : String
  pubkey : String
  created_at : Nat
  kind : Nat
  tags : List (List String)
  content : String
  sig : String
deriving Repr, DecidableEq

/-- An unsigned event template `(kind, created_at, tags, content)` as fed to
`finishEvent` by the domain event builders. -/
structure EventTemplate where
  kind : Nat
  created_at : Nat
  tags : List (List String)
  content : String
deriving Repr, DecidableEq

/-- Embedding of `getTag(tags, tagName)`: find the first tag whose first
element equals `tagName` and return its second element.  A missing second
element (JS `tag[1]` being `undefined`) is `none`, like a missing tag. -/
def getTag (tags : List (List String)) (tagName : String) : Option String :=
  match tags.find? (fun t => t.head? == some tagName) with
  | some t => t.get? 1
  | none => none

/-! ## Vote tally (`getVoteResult`) -/

/-- The validity test applied by `getVoteResult` before recording a vote:
`e.content === '+' || e.content === '-'`. -/
def isValidVote (e : NEvent) : Bool :=
  e.content == "+" || e.content == "-"

/-- Embedding of the JS map update `latestVotes[e.pubkey] = e` guarded by
`!existingVote || existingVote.created_at < e.created_at`: an association
list keyed by pubkey, updated in place for an existing key (keeping its
position, as JS objects keep insertion order) and appended otherwise. -/
def insertVote (m : List (String × NEvent)) (e : NEvent) : List (String × NEvent) :=
  match m with
  | [] => [(e.pubkey, e)]
  | (k, v) :: rest =>
    if k = e.pubkey then
      (if v.created_at < e.created_at then (k, e) else (k, v)) :: rest
    else (k, v) :: insertVote rest e

/-- One iteration of the `events.forEach` loop building the latest-votes
map: malformed content is skipped, valid votes update the map. -/
def voteStep (m : List (String × NEvent)) (e : NEvent) : List (String × NEvent) :=
  if isValidVote e then insertVote m e else m

/-- The `latestVotes` map built by `getVoteResult` from the relay-returned
kind-7 events. -/
def latestVotes (events : List NEvent) : List (String × NEvent) :=
  events.foldl voteStep []

/-- Embedding of `getVoteResult`, with the relay's `list` response passed
in explicitly: build the latest-votes map, then fold `+1` for `"+"` and
`-1` for `"-"` over its values. -/
def getVoteResult (events : List NEvent) : Int :=
  (latestVotes events).foldl
    (fun result p =>
      if p.2.content = "+" then result + 1
      else if p.2.content = "-" then result - 1
      else result) 0

/-- The signed value of a single vote event: `+1` for `"+"`, `-1` for
`"-"`, `0` for anything else. -/
def voteValue (e : NEvent) : Int :=
  if e.content = "+" then 1 else if e.content = "-" then -1 else 0

/-- Specification-side choice between two votes of one author: the one
with the greater `created_at`; on a tie the earlier one in relay order. -/
def better (x e : NEvent) : NEvent :=
  if x.created_at < e.created_at then e else x

/-- Specification-side definition: the latest vote with content `"+"` or
`"-"` by author `a`, ties broken towards the earlier event in relay
order.  `none` when `a` cast no valid vote. -/
def latestValidVote (a : String) : List NEvent → Option NEvent
  | [] => none
  | e :: rest =>
    if isValidVote e && e.pubkey == a then
      match latestValidVote a rest with
      | none => some e
      | some x => some (better e x)
    else latestValidVote a rest

/-- Specification-side definition: the latest event by author `a`
regardless of content (the claim's literal dedupe-before-filter order),
ties broken towards the earlier event in relay order. -/
def latestVoteAny (a : String) : List NEvent → Option NEvent
  | [] => none
  | e :: rest =>
    if e.pubkey == a then
      match latestVoteAny a rest with
      | none => some e
      | some x => some (better e x)
    else latestVoteAny a rest

/-- Append an element to a list of distinct keys unless already present. -/
def addDistinct (acc : List String) (a : String) : List String :=
  if a ∈ acc then acc else acc ++ [a]

/-- The distinct elements of a list, in order of first appearance. -/
def distinctFirst (l : List String) : List String :=
  l.foldl addDistinct []

/-- Specification-side vote tally, following the spec's words with the
code's filtering order: discard events whose content is neither `"+"` nor
`"-"`, then for each distinct author keep only the valid vote with the
greatest `created_at` (ties to relay order) and sum its signed value. -/
def specVoteTally (events : List NEvent) : Int :=
  (distinctFirst ((events.filter (fun e => isValidVote e)).map NEvent.pubkey)).foldl
    (fun s a => s + (match latestValidVote a events with
      | some e => voteValue e
      | none => 0)) 0

/-- The claim's literal vote tally: for each distinct author keep only
that author's event with the greatest `created_at` (over all kind-7
events, before any content filtering), then sum `+1` for `"+"` and `-1`
for `"-"` contents. -/
def claimVoteTally (events : List NEvent) : Int :=
  (distinctFirst (events.map NEvent.pubkey)).foldl
    (fun s a => s + (match latestVoteAny a events with
      | some e => voteValue e
      | none => 0)) 0

/-- Lookup in the latest-votes association list. -/
def lookupVote : List (String × NEvent) → String → Option NEvent
  | [], _ => none
  | (k, v) :: rest, a => if k = a then some v else lookupVote rest a

/-- The keys (authors) of the latest-votes association list, in order. -/
def keysOf (m : List (String × NEvent)) : List String :=
  m.map Prod.fst

/-- Merge of two optional votes, left argument earlier in relay order. -/
def combineVote : Option NEvent → Option NEvent → Option NEvent
  | none, y => y
  | some x, none => some x
  | some x, some y => some (better x y)

theorem better_assoc (x y z : NEvent) : better (better x y) z = better x (better y z) := by
  unfold better
  by_cases h1 : x.created_at < y.created_at <;>
    by_cases h2 : y.created_at < z.created_at <;>
      simp only [h1, h2, if_true, if_false, if_pos, if_neg] <;>
        split <;> first | rfl | omega

theorem combineVote_assoc (x y z : Option NEvent) :
    combineVote (combineVote x y) z = combineVote x (combineVote y z) := by
  cases x <;> cases y <;> cases z <;> simp [combineVote, better_assoc]

theorem combineVote_none_right (x : Option NEvent) : combineVote x none = x := by
  cases x <;> rfl

theorem lookupVote_insertVote_self (m : List (String × NEvent)) (e : NEvent) :
    lookupVote (insertVote m e) e.pubkey =
      some (match lookupVote m e.pubkey with
            | none => e
            | some x => better x e) := by
  induction m with
  | nil => simp [insertVote, lookupVote]
  | cons p rest ih =>
    obtain ⟨k, v⟩ := p
    by_cases hk : k = e.pubkey
    · subst hk
      by_cases hlt : v.created_at < e.created_at <;>
        simp [insertVote, lookupVote, better, hlt]
    · simp [insertVote, lookupVote, hk, ih]

theorem lookupVote_insertVote_other (m : List (String × NEvent)) (e : NEvent)
    (a : String) (ha : a ≠ e.pubkey) :
    lookupVote (insertVote m e) a = lookupVote m a := by
  induction m with
  | nil =>
    have hne : ¬ e.pubkey = a := fun h => ha h.symm
    simp [insertVote, lookupVote, hne]
  | cons p rest ih =>
    obtain ⟨k, v⟩ := p
    by_cases hk : k = e.pubkey
    · subst hk
      have hka : ¬ (e.pubkey = a) := fun h => ha h.symm
      by_cases hlt : v.created_at < e.created_at <;>
        simp [insertVote, lookupVote, hka, hlt]
    · simp [insertVote, lookupVote, hk, ih]

theorem keysOf_insertVote (m : List (String × NEvent)) (e : NEvent) :
    keysOf (insertVote m e) = addDistinct (keysOf m) e.pubkey := by
  induction m with
  | nil => simp [insertVote, keysOf, addDistinct]
  | cons p rest ih =>
    obtain ⟨k, v⟩ := p
    by_cases hk : k = e.pubkey
    · subst hk
      simp [insertVote, keysOf, addDistinct]
      split <;> simp [keysOf]
    · have hmem : e.pubkey ∈ k :: keysOf rest ↔ e.pubkey ∈ keysOf rest := by
        constructor
        · intro h
          rcases List.mem_cons.mp h with h | h
          · exact absurd h.symm hk
          · exact h
        · intro h
          exact List.mem_cons_of_mem _ h
      simp only [insertVote, if_neg hk, keysOf, List.map_cons]
      rw [show (List.map Prod.fst (insertVote rest e)) = keysOf (insertVote rest e) from rfl, ih]
      simp only [addDistinct, keysOf]
      by_cases hm : e.pubkey ∈ List.map Prod.fst rest
      · simp [hm, hmem, keysOf]
      · simp only [keysOf] at hmem
        simp [hm, hmem]

theorem lookupVote_foldl (events : List NEvent) :
    ∀ (m : List (String × NEvent)) (a : String),
      lookupVote (events.foldl voteStep m) a =
        combineVote (lookupVote m a) (latestValidVote a events) := by
  induction events with
  | nil =>
    intro m a
    simp [latestValidVote, combineVote_none_right]
  | cons e rest ih =>
    intro m a
    simp only [List.foldl_cons]
    by_cases hv : isValidVote e
    · by_cases hp : e.pubkey = a
      · subst hp
        rw [show voteStep m e = insertVote m e from if_pos hv]
        rw [ih (insertVote m e) e.pubkey]
        rw [lookupVote_insertVote_self]
        have hcomb : (match lookupVote m e.pubkey with
            | none => e
            | some x => better x e) =
            match combineVote (lookupVote m e.pubkey) (some e) with
            | some w => w
            | none => e := by
          cases lookupVote m e.pubkey <;> simp [combineVote]
        have hstep : latestValidVote e.pubkey (e :: rest) =
            combineVote (some e) (latestValidVote e.pubkey rest) := by
          simp only [latestValidVote, hv, BEq.refl, Bool.and_self, if_pos]
          cases latestValidVote e.pubkey rest <;> simp [combineVote]
        rw [hstep, ← combineVote_assoc]
        congr 1
        cases lookupVote m e.pubkey <;> simp [combineVote]
      · rw [show voteStep m e = insertVote m e from if_pos hv]
        rw [ih (insertVote m e) a]
        rw [lookupVote_insertVote_other m e a (fun h => hp h.symm)]
        have : latestValidVote a (e :: rest) = latestValidVote a rest := by
          have hbe : (e.pubkey == a) = false := beq_false_of_ne hp
          simp [latestValidVote, hbe]
        rw [this]
    · rw [show voteStep m e = m from if_neg hv]
      rw [ih m a]
      have : latestValidVote a (e :: rest) = latestValidVote a rest := by
        have hbv : isValidVote e = false := by
          simpa using hv
        simp [latestValidVote, hbv]
      rw [this]

theorem keysOf_foldl (events : List NEvent) :
    ∀ (m : List (String × NEvent)),
      keysOf (events.foldl voteStep m) =
        ((events.filter (fun e => isValidVote e)).map NEvent.pubkey).foldl addDistinct (keysOf m) := by
  induction events with
  | nil => intro m; rfl
  | cons e rest ih =>
    intro m
    by_cases hv : isValidVote e
    · simp only [List.foldl_cons, List.filter_cons, hv, if_pos, List.map_cons]
      rw [show voteStep m e = insertVote m e from if_pos hv]
      rw [ih (insertVote m e), keysOf_insertVote]
    · have hbv : isValidVote e = false := by simpa using hv
      simp only [List.foldl_cons, List.filter_cons, hbv]
      rw [show voteStep m e = m from if_neg hv]
      exact ih m

theorem mem_foldl_addDistinct (l : List String) :
    ∀ (acc : List String) (x : String),
      x ∈ l.foldl addDistinct acc ↔ x ∈ acc ∨ x ∈ l := by
  induction l with
  | nil => intro acc x; simp
  | cons a rest ih =>
    intro acc x
    simp only [List.foldl_cons]
    rw [ih]
    unfold addDistinct
    by_cases h : a ∈ acc
    · simp only [if_pos h]
      constructor
      · rintro (hx | hx)
        · exact Or.inl hx
        · exact Or.inr (List.mem_cons_of_mem _ hx)
      · rintro (hx | hx)
        · exact Or.inl hx
        · rcases List.mem_cons.mp hx with rfl | hx
          · exact Or.inl h
          · exact Or.inr hx
    · simp only [if_neg h, List.mem_append, List.mem_singleton]
      constructor
      · rintro ((hx | rfl) | hx)
        · exact Or.inl hx
        · exact Or.inr (List.mem_cons_self _ _)
        · exact Or.inr (List.mem_cons_of_mem _ hx)
      · rintro (hx | hx)
        · exact Or.inl (Or.inl hx)
        · rcases List.mem_cons.mp hx with rfl | hx
          · exact Or.inl (Or.inr rfl)
          · exact Or.inr hx

theorem nodup_foldl_addDistinct (l : List String) :
    ∀ (acc : List String), acc.Nodup → (l.foldl addDistinct acc).Nodup := by
  induction l with
  | nil => intro acc h; exact h
  | cons a rest ih =>
    intro acc hacc
    simp only [List.foldl_cons]
    apply ih
    unfold addDistinct
    by_cases h : a ∈ acc
    · simpa [h] using hacc
    · simp only [if_neg h]
      rw [List.nodup_append]
      exact ⟨hacc, List.nodup_singleton a, by simpa using fun hx => h hx⟩

theorem lookupVote_of_mem (m : List (String × NEvent)) (hm : (keysOf m).Nodup) :
    ∀ p ∈ m, lookupVote m p.1 = some p.2 := by
  induction m with
  | nil => intro p hp; exact absurd hp (List.not_mem_nil p)
  | cons q rest ih =>
    intro p hp
    obtain ⟨k, v⟩ := q
    have hm1 := List.nodup_cons.mp (show (k :: keysOf rest).Nodup from hm)
    rcases List.mem_cons.mp hp with rfl | hp
    · simp [lookupVote]
    · have hne : k ≠ p.1 := by
        intro h
        apply hm1.1
        rw [h]
        exact List.mem_map.mpr ⟨p, hp, rfl⟩
      simp [lookupVote, hne, ih hm1.2 p hp]

theorem foldl_add_int {α : Type} (f : α → Int) (l : List α) :
    ∀ (i : Int), l.foldl (fun s x => s + f x) i = i + (l.map f).sum := by
  induction l with
  | nil => intro i; simp
  | cons a rest ih =>
    intro i
    simp only [List.foldl_cons, List.map_cons, List.sum_cons]
    rw [ih]
    ring

theorem getVoteResult_as_sum (events : List NEvent) :
    getVoteResult events = ((latestVotes events).map (fun p => voteValue p.2)).sum := by
  unfold getVoteResult
  have hstep : ∀ (m : List (String × NEvent)) (i : Int),
      m.foldl (fun result p =>
        if p.2.content = "+" then result + 1
        else if p.2.content = "-" then result - 1
        else result) i = m.foldl (fun s p => s + voteValue p.2) i := by
    intro m
    induction m with
    | nil => intro i; rfl
    | cons p rest ih =>
      intro i
      simp only [List.foldl_cons]
      rw [ih]
      congr 1
      unfold voteValue
      by_cases h1 : p.2.content = "+" <;> by_cases h2 : p.2.content = "-" <;>
        simp [h1, h2] <;> omega
  rw [hstep, foldl_add_int]
  simp

theorem map_eq_of_forall_mem {α β : Type} (l : List α) (f g : α → β)
    (h : ∀ x ∈ l, f x = g x) : l.map f = l.map g := by
  induction l with
  | nil => rfl
  | cons a rest ih =>
    simp only [List.map_cons]
    rw [h a (List.mem_cons_self _ _), ih (fun x hx => h x (List.mem_cons_of_mem _ hx))]

/-- Refinement of the vote tally: `getVoteResult` computes exactly the
specification's filter-first tally. -/
theorem getVoteResult_eq_specVoteTally (events : List NEvent) :
    getVoteResult events = specVoteTally events := by
  unfold specVoteTally
  rw [foldl_add_int]
  rw [getVoteResult_as_sum]
  have hkeys : keysOf (latestVotes events) =
      distinctFirst ((events.filter (fun e => isValidVote e)).map NEvent.pubkey) := by
    unfold latestVotes distinctFirst
    rw [keysOf_foldl]
    rfl
  have hnodup : (keysOf (latestVotes events)).Nodup := by
    rw [hkeys]
    exact nodup_foldl_addDistinct _ _ List.nodup_nil
  have hlookup : ∀ a, lookupVote (latestVotes events) a = latestValidVote a events := by
    intro a
    unfold latestVotes
    rw [lookupVote_foldl]
    simp [lookupVote, combineVote]
  have hmap : (latestVotes events).map (fun p => voteValue p.2) =
      (keysOf (latestVotes events)).map (fun a =>
        match latestValidVote a events with
        | some e => voteValue e
        | none => 0) := by
    unfold keysOf
    rw [List.map_map]
    apply map_eq_of_forall_mem
    intro p hp
    have h1 : lookupVote (latestVotes events) p.1 = some p.2 :=
      lookupVote_of_mem _ hnodup p hp
    have h2 : latestValidVote p.1 events = some p.2 := by
      rw [← hlookup]; exact h1
    simp [Function.comp, h2]
  rw [hmap, hkeys]
  simp

/-! ## Concrete vote events for examples and counterexamples -/

/-- Author A's upvote at t = 1. -/
def vA1 : NEvent :=
  { id := "a1", pubkey := "A", created_at := 1, kind := 7,
    tags := [["t", "zapstack_test"], ["e", "target"], ["p", "PA"]], content := "+", sig := "s1" }

/-- Author A's downvote at t = 2. -/
def vA2 : NEvent :=
  { id := "a2", pubkey := "A", created_at := 2, kind := 7,
    tags := [["t", "zapstack_test"], ["e", "target"], ["p", "PA"]], content := "-", sig := "s2" }

/-- Author B's upvote at t = 1. -/
def vB1 : NEvent :=
  { id := "b1", pubkey := "B", created_at := 1, kind := 7,
    tags := [["t", "zapstack_test"], ["e", "target"], ["p", "PB"]], content := "+", sig := "s3" }

/-- Author A's malformed vote (content "x") at t = 2. -/
def vAx2 : NEvent :=
  { id := "ax", pubkey := "A", created_at := 2, kind := 7,
    tags := [["t", "zapstack_test"], ["e", "target"], ["p", "PA"]], content := "x", sig := "s4" }

/-- C1 counterexample: on the list {A:"x" at t=2, A:"+" at t=1} the code's
tally is 1 (the malformed vote is discarded before the latest-per-author
selection), while the claim's literal procedure — keep each author's event
with the greatest created_at, then sum signed contents — yields 0, because
it keeps A's later malformed event. -/
theorem C1_counterexample :
    getVoteResult [vAx2, vA1] = 1 ∧ claimVoteTally [vAx2, vA1] = 0 := by
  decide

/-- C1 (amended): the vote tally first discards events whose content is
neither "+" nor "-", then keeps, per distinct author, only that author's
remaining event with the greatest created_at (ties to relay order), and
sums +1 for "+" and -1 for "-"; in particular, for votes
{A:"+" at t=1, A:"-" at t=2, B:"+" at t=1} the tally is 0. -/
theorem C1_vote_tally :
    (∀ events, getVoteResult events = specVoteTally events) ∧
      getVoteResult [vA1, vA2, vB1] = 0 :=
  ⟨getVoteResult_eq_specVoteTally, by decide⟩

/-- C8: the vote tally ignores malformed vote content — removing an event
whose content is neither "+" nor "-" from anywhere in the relay's response
does not change the tally, i.e. such an event contributes 0. -/
theorem C8_malformed_contributes_zero :
    ∀ (pre post : List NEvent) (e : NEvent),
    isValidVote e = false →
    getVoteResult (pre ++ e :: post) = getVoteResult (pre ++ post) := by
  intro pre post e hv
  unfold getVoteResult latestVotes
  rw [List.foldl_append, List.foldl_append, List.foldl_cons]
  rw [show voteStep (pre.foldl voteStep []) e = pre.foldl voteStep [] from
    if_neg (by simp [hv])]

/-- Witness for C8 at the concrete malformed vote vAx2. -/
theorem C8_witness :
    isValidVote vAx2 = false ∧
      getVoteResult ([vA1] ++ vAx2 :: [vB1]) = getVoteResult ([vA1] ++ [vB1]) :=
  ⟨by decide, C8_malformed_contributes_zero [vA1] [vB1] vAx2 (by decide)⟩

theorem latestValidVote_isSome (a : String) (events : List NEvent) (e : NEvent)
    (he : e ∈ events) (hp : e.pubkey = a) (hv : isValidVote e = true) :
    ∃ w, latestValidVote a events = some w := by
  induction events with
  | nil => exact absurd he (List.not_mem_nil e)
  | cons f rest ih =>
    rcases List.mem_cons.mp he with rfl | he2
    · have hc : (isValidVote e && e.pubkey == a) = true := by
        rw [hv, hp]
        simp
      simp only [latestValidVote, hc, if_pos]
      cases latestValidVote a rest with
      | none => exact ⟨e, rfl⟩
      | some x => exact ⟨better e x, rfl⟩
    · obtain ⟨w, hw⟩ := ih he2
      by_cases hc : (isValidVote f && f.pubkey == a) = true
      · simp only [latestValidVote, hc, if_pos, hw]
        exact ⟨better f w, rfl⟩
      · have hc2 : (isValidVote f && f.pubkey == a) = false := by
          simpa using hc
        simp only [latestValidVote, hc2]
        simp only [Bool.false_eq_true, if_false]
        exact ⟨w, hw⟩

theorem latestValidVote_spec (a : String) (events : List NEvent) (w : NEvent)
    (hw : latestValidVote a events = some w) :
    w ∈ events ∧ w.pubkey = a ∧ isValidVote w = true ∧
      ∀ eo ∈ events, eo.pubkey = a → isValidVote eo = true →
        eo.created_at ≤ w.created_at := by
  induction events generalizing w with
  | nil => exact absurd hw (by simp [latestValidVote])
  | cons f rest ih =>
    by_cases hc : (isValidVote f && f.pubkey == a) = true
    · have hc9 : isValidVote f = true ∧ (f.pubkey == a) = true := by simpa using hc
      have hfv : isValidVote f = true := hc9.1
      have hfa : f.pubkey = a := eq_of_beq hc9.2
      rw [show latestValidVote a (f :: rest) =
          (match latestValidVote a rest with
           | none => some f
           | some x => some (better f x)) from by
        simp only [latestValidVote, hc, if_pos]] at hw
      cases hrest : latestValidVote a rest with
      | none =>
        rw [hrest] at hw
        have hwf : w = f := by
          simpa using hw.symm
        subst hwf
        refine ⟨List.mem_cons_self _ _, hfa, hfv, ?_⟩
        intro eo heo hpa hva
        rcases List.mem_cons.mp heo with rfl | heo2
        · exact Nat.le_refl _
        · obtain ⟨x, hx⟩ := latestValidVote_isSome a rest eo heo2 hpa hva
          rw [hx] at hrest
          exact absurd hrest (by simp)
      | some x =>
        rw [hrest] at hw
        obtain ⟨hx1, hx2, hx3, hx4⟩ := ih x hrest
        have hwb : w = better f x := by simpa using hw.symm
        subst hwb
        have hbx : x.created_at ≤ (better f x).created_at := by
          unfold better
          split
          · exact Nat.le_refl _
          · omega
        have hbf : f.created_at ≤ (better f x).created_at := by
          unfold better
          split
          · omega
          · exact Nat.le_refl _
        constructor
        · unfold better
          split
          · exact List.mem_cons_of_mem _ hx1
          · exact List.mem_cons_self _ _
        refine ⟨?_, ?_, ?_⟩
        · unfold better
          split
          · exact hx2
          · exact hfa
        · unfold better
          split
          · exact hx3
          · exact hfv
        · intro eo heo hpa hva
          rcases List.mem_cons.mp heo with rfl | heo2
          · exact hbf
          · exact Nat.le_trans (hx4 eo heo2 hpa hva) hbx
    · have hc2 : (isValidVote f && f.pubkey == a) = false := by simpa using hc
      rw [show latestValidVote a (f :: rest) = latestValidVote a rest from by
        simp only [latestValidVote, hc2]
        simp only [Bool.false_eq_true, if_false]] at hw
      obtain ⟨h1, h2, h3, h4⟩ := ih w hw
      refine ⟨List.mem_cons_of_mem _ h1, h2, h3, ?_⟩
      intro eo heo hpa hva
      rcases List.mem_cons.mp heo with rfl | heo2
      · exact absurd (by simp [hva, hpa]) hc
      · exact h4 eo heo2 hpa hva

/-- C9: malformed-content events are excluded before the latest-vote
selection — whenever an author has a valid vote, the entry kept for that
author is a valid vote with maximal created_at among the author's valid
votes, even in the presence of a later malformed event by the same
author; its contribution to the tally is +1 or -1. -/
theorem C9_malformed_never_suppresses :
    ∀ (events : List NEvent) (a : String) (eVal eMal : NEvent),
    eVal ∈ events → eVal.pubkey = a → isValidVote eVal = true →
    eMal ∈ events → eMal.pubkey = a → isValidVote eMal = false →
    eVal.created_at < eMal.created_at →
    ∃ w, lookupVote (latestVotes events) a = some w ∧
      isValidVote w = true ∧ w.pubkey = a ∧ w ∈ events ∧
      (voteValue w = 1 ∨ voteValue w = -1) ∧
      ∀ eo ∈ events, eo.pubkey = a → isValidVote eo = true →
        eo.created_at ≤ w.created_at := by
  intro events a eVal eMal hmem hpk hv _ _ _ _
  have hlookup : lookupVote (latestVotes events) a = latestValidVote a events := by
    unfold latestVotes
    rw [lookupVote_foldl]
    simp [lookupVote, combineVote]
  obtain ⟨w, hw⟩ := latestValidVote_isSome a events eVal hmem hpk hv
  obtain ⟨h1, h2, h3, h4⟩ := latestValidVote_spec a events w hw
  refine ⟨w, by rw [hlookup]; exact hw, h3, h2, h1, ?_, h4⟩
  unfold isValidVote at h3
  have h3a : w.content = "+" ∨ w.content = "-" := by simpa using h3
  unfold voteValue
  rcases h3a with hplus | hminus
  · left
    rw [if_pos hplus]
  · right
    rw [hminus]
    simp

/-- Witness for C9: author A has a valid upvote at t=1 and a later
malformed vote at t=2; the kept entry for A is a valid maximal vote. -/
theorem C9_witness :
    ∃ w, lookupVote (latestVotes [vA1, vAx2]) "A" = some w ∧
      isValidVote w = true ∧ w.pubkey = "A" ∧ w ∈ [vA1, vAx2] ∧
      (voteValue w = 1 ∨ voteValue w = -1) ∧
      ∀ eo ∈ [vA1, vAx2], eo.pubkey = "A" → isValidVote eo = true →
        eo.created_at ≤ w.created_at :=
  C9_malformed_never_suppresses [vA1, vAx2] "A" vA1 vAx2 (by decide) rfl
    (by decide) (by decide) rfl (by decide) (by decide)

/-! ## JSON model

The service hands event `content` and `description` strings to the
JavaScript builtins `JSON.parse` / `JSON.stringify`.  These external
collaborators are modeled executably: a JSON value type and a
recursive-descent parser covering the JSON fragment the service can meet
(strings with simple escapes, decimal numbers, arrays, objects, booleans,
null; `\u` escapes and exponents are outside the model). -/

inductive Json where
  | null
  | bool (b : Bool)
  | num (q : ℚ)
  | str (s : String)
  | arr (items : List Json)
  | obj (fields : List (String × Json))

/-- Whitespace as skipped by the JSON grammar. -/
def isWsChar (c : Char) : Bool :=
  c = ' ' || c = '\n' || c = '\t' || c = '\r'

def skipWs : List Char → List Char
  | [] => []
  | c :: rest => if isWsChar c then skipWs rest else c :: rest

/-- Decode a single backslash escape inside a JSON string literal. -/
def escChar (d : Char) : Char :=
  if d = 'n' then '\n' else if d = 't' then '\t' else if d = 'r' then '\r' else d

/-- Parse the body of a JSON string literal after its opening quote,
accumulating decoded characters (in reverse). -/
def parseStrBody : List Char → List Char → Option (String × List Char)
  | _, [] => none
  | acc, '\\' :: rest =>
    match rest with
    | [] => none
    | d :: rest2 => parseStrBody (escChar d :: acc) rest2
  | acc, c :: rest =>
    if c = '"' then some (String.mk acc.reverse, rest)
    else parseStrBody (c :: acc) rest

/-- Split a leading run of decimal digits off a character list. -/
def takeDigits : List Char → List Char × List Char
  | [] => ([], [])
  | c :: rest =>
    if c.isDigit then
      match takeDigits rest with
      | (ds, r) => (c :: ds, r)
    else ([], c :: rest)

def digitsToNat (ds : List Char) : Nat :=
  ds.foldl (fun n c => n * 10 + (c.toNat - 48)) 0

/-- Parse a decimal number token (integer or fraction part), already past
any leading minus sign. -/
def parseNumToken (neg : Bool) (cs : List Char) : Option (Json × List Char) :=
  match takeDigits cs with
  | ([], _) => none
  | (ds, r) =>
    match r with
    | '.' :: r2 =>
      match takeDigits r2 with
      | ([], _) => none
      | (fs, r3) =>
        let q : ℚ := (digitsToNat ds : ℚ) + (digitsToNat fs : ℚ) / (10 : ℚ) ^ fs.length
        some (Json.num (if neg then -q else q), r3)
    | _ =>
      let q : ℚ := (digitsToNat ds : ℚ)
      some (Json.num (if neg then -q else q), r)

mutual

def parseVal : Nat → List Char → Option (Json × List Char)
  | 0, _ => none
  | fuel + 1, cs =>
    match skipWs cs with
    | [] => none
    | c :: rest =>
      if c = '"' then
        match parseStrBody [] rest with
        | some (s, r) => some (Json.str s, r)
        | none => none
      else if c = '\x7b' then parseObjBody fuel rest
      else if c = '[' then parseArrBody fuel rest
      else if c = '-' then parseNumToken true rest
      else if c.isDigit then parseNumToken false (c :: rest)
      else
        match c :: rest with
        | 't' :: 'r' :: 'u' :: 'e' :: r => some (Json.bool true, r)
        | 'f' :: 'a' :: 'l' :: 's' :: 'e' :: r => some (Json.bool false, r)
        | 'n' :: 'u' :: 'l' :: 'l' :: r => some (Json.null, r)
        | _ => none

def parseObjBody : Nat → List Char → Option (Json × List Char)
  | 0, _ => none
  | fuel + 1, cs =>
    match skipWs cs with
    | '\x7d' :: r => some (Json.obj [], r)
    | cs2 =>
      match parseFieldList fuel cs2 with
      | some (fs, r) => some (Json.obj fs, r)
      | none => none

def parseFieldList : Nat → List Char → Option (List (String × Json) × List Char)
  | 0, _ => none
  | fuel + 1, cs =>
    match skipWs cs with
    | '"' :: rest =>
      match parseStrBody [] rest with
      | some (key, r1) =>
        match skipWs r1 with
        | ':' :: r2 =>
          match parseVal fuel r2 with
          | some (v, r3) =>
            match skipWs r3 with
            | ',' :: r4 =>
              match parseFieldList fuel r4 with
              | some (fs, r5) => some ((key, v) :: fs, r5)
              | none => none
            | '\x7d' :: r4 => some ([(key, v)], r4)
            | _ => none
          | none => none
        | _ => none
      | none => none
    | _ => none

def parseArrBody : Nat → List Char → Option (Json × List Char)
  | 0, _ => none
  | fuel + 1, cs =>
    match skipWs cs with
    | ']' :: r => some (Json.arr [], r)
    | cs2 =>
      match parseItemList fuel cs2 with
      | some (items, r) => some (Json.arr items, r)
      | none => none

def parseItemList : Nat → List Char → Option (List Json × List Char)
  | 0, _ => none
  | fuel + 1, cs =>
    match parseVal fuel cs with
    | some (v, r1) =>
      match skipWs r1 with
      | ',' :: r2 =>
        match parseItemList fuel r2 with
        | some (items, r3) => some (v :: items, r3)
        | none => none
      | ']' :: r2 => some ([v], r2)
      | _ => none
    | none => none

end

/-- Model of `JSON.parse`: parse one value, allow trailing whitespace,
reject anything else.  `none` models the thrown `SyntaxError`.  The fuel
`2 * length + 4` dominates the recursion depth of any parse. -/
def parseJson (s : String) : Option Json :=
  match parseVal (2 * s.length + 4) s.data with
  | some (v, rest) => if skipWs rest = [] then some v else none
  | none => none

/-- Trim leading and trailing JSON-style whitespace. -/
def trimWs (cs : List Char) : List Char :=
  (skipWs (skipWs cs).reverse).reverse

/-- Model of the JavaScript `Number(string)` conversion on the decimal
fragment relevant here: trimmed empty string is 0, an optionally signed
decimal literal is its value, anything else is NaN, modeled `none`. -/
def jsNumber (s : String) : Option ℚ :=
  match trimWs s.data with
  | [] => some 0
  | '-' :: r =>
    match parseNumToken true r with
    | some (Json.num q, []) => some q
    | _ => none
  | '+' :: r =>
    match parseNumToken false r with
    | some (Json.num q, []) => some q
    | _ => none
  | cs =>
    match parseNumToken false cs with
    | some (Json.num q, []) => some q
    | _ => none

/-! ## Payment total (`getZaps`) -/

/-- Last-wins lookup of an object field, as JS `obj.field` after
`JSON.parse` (duplicate keys keep the last occurrence). -/
def lookupField (fields : List (String × Json)) (name : String) : Option Json :=
  fields.foldl (fun acc kv => if kv.1 = name then some kv.2 else acc) none

/-- Convert a JSON row to a list of strings, when every item is a string. -/
def rowStrings : List Json → Option (List String)
  | [] => some []
  | Json.str s :: rest =>
    match rowStrings rest with
    | some ss => some (s :: ss)
    | none => none
  | _ => none

/-- Convert a JSON array of rows to `string[][]`, when well-shaped. -/
def tagRows : List Json → Option (List (List String))
  | [] => some []
  | Json.arr row :: rest =>
    match rowStrings row with
    | some ss =>
      match tagRows rest with
      | some rows => some (ss :: rows)
      | none => none
    | none => none
  | _ => none

/-- Model of the member access `zapRequest.tags` followed by its use as a
`string[][]` by `getTag`: accessing a member of `null` throws; a missing
or non-`string[][]` tags value makes the subsequent `.find` call throw a
`TypeError`.  Errors model thrown JS exceptions. -/
def jsonTagsOf : Json → Except String (List (List String))
  | Json.null => Except.error "TypeError: cannot read properties of null"
  | Json.obj fields =>
    match lookupField fields "tags" with
    | some (Json.arr rows) =>
      match tagRows rows with
      | some tags => Except.ok tags
      | none => Except.error "TypeError: tags is not a string array"
    | some _ => Except.error "TypeError: tags is not an array"
    | none => Except.error "TypeError: cannot read properties of undefined"
  | _ => Except.error "TypeError: cannot read properties of undefined"

/-- Per-receipt step of the `getZaps` aggregation, mirroring the flatMap
callback: a falsy (missing or empty) description contributes 0; a present
description is JSON-parsed (`SyntaxError` aborts the call), its `tags`
member is read, the `amount` tag is extracted, and a truthy amount is
converted by `Number(amount) / 1000` — NaN is the inner `none`. -/
def zapItem (e : NEvent) : Except String (Option ℚ) :=
  match getTag e.tags "description" with
  | none => Except.ok (some 0)
  | some desc =>
    if desc = "" then Except.ok (some 0)
    else
      match parseJson desc with
      | none => Except.error "SyntaxError: invalid JSON in description"
      | some zapRequest =>
        match jsonTagsOf zapRequest with
        | Except.error msg => Except.error msg
        | Except.ok tags =>
          match getTag tags "amount" with
          | none => Except.ok (some 0)
          | some amount =>
            if amount = "" then Except.ok (some 0)
            else Except.ok ((jsNumber amount).map (fun q => q / 1000))

/-- The per-receipt values produced by the flatMap, left to right; the
first thrown exception aborts the whole call. -/
def zapItems : List NEvent → Except String (List (Option ℚ))
  | [] => Except.ok []
  | e :: rest =>
    match zapItem e with
    | Except.error m => Except.error m
    | Except.ok x =>
      match zapItems rest with
      | Except.error m => Except.error m
      | Except.ok xs => Except.ok (x :: xs)

/-- JavaScript addition on possibly-NaN numbers: NaN is absorbing. -/
def jsAdd (a b : Option ℚ) : Option ℚ :=
  match a, b with
  | some x, some y => some (x + y)
  | _, _ => none

/-- Embedding of `getZaps`, with the relay's kind-9735 `list` response
passed in explicitly: map each receipt to its value and reduce with `+`
from 0. -/
def getZaps (events : List NEvent) : Except String (Option ℚ) :=
  match zapItems events with
  | Except.error m => Except.error m
  | Except.ok items => Except.ok (items.foldl jsAdd (some 0))

/-! ## Concrete receipt events -/

/-- A description embedding an amount tag of 3000 (smallest unit). -/
def desc3000 : String := "\x7b\"tags\":[[\"amount\",\"3000\"]]\x7d"

/-- A description embedding an amount tag of 5000 (smallest unit). -/
def desc5000 : String := "\x7b\"tags\":[[\"amount\",\"5000\"]]\x7d"

/-- Receipt with embedded amount 3000. -/
def r3000 : NEvent :=
  { id := "z1", pubkey := "Z1", created_at := 10, kind := 9735,
    tags := [["e", "target"], ["description", desc3000]], content := "", sig := "zs1" }

/-- Receipt with embedded amount 5000. -/
def r5000 : NEvent :=
  { id := "z2", pubkey := "Z2", created_at := 11, kind := 9735,
    tags := [["e", "target"], ["description", desc5000]], content := "", sig := "zs2" }

/-- Receipt with no description tag at all. -/
def rNoDesc : NEvent :=
  { id := "z3", pubkey := "Z3", created_at := 12, kind := 9735,
    tags := [["e", "target"]], content := "", sig := "zs3" }

/-- Receipt whose description is not valid JSON. -/
def rBadDesc : NEvent :=
  { id := "z4", pubkey := "Z4", created_at := 13, kind := 9735,
    tags := [["e", "target"], ["description", "\x7b"]], content := "", sig := "zs4" }

/-- C2 counterexample: a receipt whose description tag is present but not
parseable as JSON makes the whole `getZaps` call throw (the `JSON.parse`
call is not guarded), instead of contributing 0 as the claim states. -/
theorem C2_counterexample :
    getZaps [r3000, rBadDesc] = Except.error "SyntaxError: invalid JSON in description" := by
  have h3 : zapItem r3000 = Except.ok ((jsNumber "3000").map (fun q => q / 1000)) := rfl
  have hb : zapItem rBadDesc = Except.error "SyntaxError: invalid JSON in description" := rfl
  simp only [getZaps, zapItems, h3, hb]

theorem zapItems_append (l1 l2 : List NEvent) :
    zapItems (l1 ++ l2) =
      match zapItems l1 with
      | Except.error m => Except.error m
      | Except.ok xs =>
        match zapItems l2 with
        | Except.error m => Except.error m
        | Except.ok ys => Except.ok (xs ++ ys) := by
  induction l1 with
  | nil =>
    simp only [List.nil_append, zapItems]
    cases zapItems l2 <;> rfl
  | cons e rest ih =>
    show zapItems (e :: (rest ++ l2)) = _
    simp only [zapItems]
    rw [ih]
    cases zapItem e with
    | error m => rfl
    | ok x =>
      cases zapItems rest with
      | error m => rfl
      | ok xs =>
        cases zapItems l2 <;> rfl

theorem jsAdd_zero_right (a : Option ℚ) : jsAdd a (some 0) = a := by
  cases a with
  | none => rfl
  | some x => simp [jsAdd]

theorem foldl_jsAdd_skip_zero (xs ys : List (Option ℚ)) (i : Option ℚ) :
    (xs ++ some 0 :: ys).foldl jsAdd i = (xs ++ ys).foldl jsAdd i := by
  rw [List.foldl_append, List.foldl_append, List.foldl_cons, jsAdd_zero_right]

/-- C2 (amended): the payment total sums the embedded amounts divided by
1000 — e.g. 3000 and 5000 give 8 — and a receipt with a MISSING (or
falsy-empty) description tag contributes 0 without aborting; but a
receipt whose description is present and unparseable makes the whole
call throw a SyntaxError rather than contributing 0. -/
theorem C2_payment_total :
    (∀ (pre post : List NEvent) (e : NEvent),
      getTag e.tags "description" = none →
      getZaps (pre ++ e :: post) = getZaps (pre ++ post)) ∧
    getZaps [r3000, r5000] = Except.ok (some 8) ∧
    getZaps [rBadDesc] = Except.error "SyntaxError: invalid JSON in description" := by
  refine ⟨?_, ?_, ?_⟩
  · intro pre post e he
    have hi : zapItem e = Except.ok (some 0) := by
      unfold zapItem
      rw [he]
    unfold getZaps
    rw [zapItems_append, zapItems_append]
    cases h1 : zapItems pre with
    | error m => rfl
    | ok xs =>
      simp only [zapItems, hi]
      cases h2 : zapItems post with
      | error m => rfl
      | ok ys =>
        simp only [foldl_jsAdd_skip_zero]
  · have h3 : zapItem r3000 = Except.ok (some 3) := by
      have h0 : zapItem r3000 = Except.ok ((jsNumber "3000").map (fun q => q / 1000)) := rfl
      have h1 : jsNumber "3000" = some ((3000 : Nat) : ℚ) := rfl
      rw [h0, h1]
      simp only [Option.map_some']
      norm_num
    have h5 : zapItem r5000 = Except.ok (some 5) := by
      have h0 : zapItem r5000 = Except.ok ((jsNumber "5000").map (fun q => q / 1000)) := rfl
      have h1 : jsNumber "5000" = some ((5000 : Nat) : ℚ) := rfl
      rw [h0, h1]
      simp only [Option.map_some']
      norm_num
    simp only [getZaps, zapItems, h3, h5]
    simp only [List.foldl_cons, List.foldl_nil, jsAdd]
    norm_num
  · have hb : zapItem rBadDesc = Except.error "SyntaxError: invalid JSON in description" := rfl
    simp only [getZaps, zapItems, hb]

/-- Witness for C2's universally quantified part: dropping the
description-free receipt rNoDesc from the middle of a response leaves the
total unchanged. -/
theorem C2_witness :
    getZaps ([r3000] ++ rNoDesc :: [r5000]) = getZaps ([r3000] ++ [r5000]) :=
  C2_payment_total.1 [r3000] [r5000] rNoDesc rfl

/-! ## Payment-confirmation wait (`waitForZap`) -/

/-- State of the `waitForZap` promise: whether it has resolved and
whether the live subscription is still open. -/
structure ZapWait where
  resolved : Bool
  subOpen : Bool
deriving Repr, DecidableEq

/-- The event-callback test `bolt11Tag && bolt11Tag == invoice`: the tag
must be present, truthy (non-empty) and equal to the expected invoice. -/
def bolt11Matches (invoice : String) (event : NEvent) : Bool :=
  match getTag event.tags "bolt11" with
  | some b => !(b == "") && (b == invoice)
  | none => false

/-- One received receipt processed by the subscription callback: while
the subscription is open, a matching receipt resolves the wait (resolving
an already-resolved promise is a no-op); the subscription itself is never
unsubscribed by the code. -/
def waitStep (invoice : String) (s : ZapWait) (event : NEvent) : ZapWait :=
  if s.subOpen then
    if bolt11Matches invoice event then { s with resolved := true } else s
  else s

/-- Embedding of `waitForZap`: the wait state after the subscription has
delivered the given receipts in order, starting unresolved with the
subscription open. -/
def waitForZap (invoice : String) (received : List NEvent) : ZapWait :=
  received.foldl (waitStep invoice) { resolved := false, subOpen := true }

/-- A receipt whose bolt11 tag matches invoice "inv1". -/
def zMatch : NEvent :=
  { id := "w1", pubkey := "W1", created_at := 20, kind := 9735,
    tags := [["e", "target"], ["bolt11", "inv1"]], content := "", sig := "ws1" }

/-- A receipt whose bolt11 tag does not match invoice "inv1". -/
def zNoMatch : NEvent :=
  { id := "w2", pubkey := "W2", created_at := 21, kind := 9735,
    tags := [["e", "target"], ["bolt11", "other"]], content := "", sig := "ws2" }

/-- C3 counterexample: after the first matching receipt the wait has
resolved but the subscription is still open — `waitForZap` never calls
unsub, so the claim that the live subscription is cancelled on match
fails. -/
theorem C3_counterexample :
    waitForZap "inv1" [zMatch] = { resolved := true, subOpen := true } := by
  decide

theorem waitStep_subOpen (invoice : String) (s : ZapWait) (e : NEvent) :
    (waitStep invoice s e).subOpen = s.subOpen := by
  unfold waitStep
  split
  · split <;> rfl
  · rfl

theorem foldl_waitStep_subOpen (invoice : String) (events : List NEvent) :
    ∀ s : ZapWait, (events.foldl (waitStep invoice) s).subOpen = s.subOpen := by
  induction events with
  | nil => intro s; rfl
  | cons e rest ih =>
    intro s
    simp only [List.foldl_cons]
    rw [ih, waitStep_subOpen]

theorem waitStep_resolved_mono (invoice : String) (s : ZapWait) (e : NEvent)
    (h : s.resolved = true) : (waitStep invoice s e).resolved = true := by
  unfold waitStep
  split
  · split
    · rfl
    · exact h
  · exact h

theorem foldl_waitStep_resolved_mono (invoice : String) (events : List NEvent) :
    ∀ s : ZapWait, s.resolved = true →
      (events.foldl (waitStep invoice) s).resolved = true := by
  induction events with
  | nil => intro s h; exact h
  | cons e rest ih =>
    intro s h
    simp only [List.foldl_cons]
    exact ih _ (waitStep_resolved_mono invoice s e h)

theorem waitStep_no_match (invoice : String) (s : ZapWait) (e : NEvent)
    (h : bolt11Matches invoice e = false) : waitStep invoice s e = s := by
  unfold waitStep
  split
  · rw [h]
    simp
  · rfl

/-- C3 (amended): in the payment-confirmation wait, the first received
receipt whose bolt11 tag is present, non-empty and exactly equal to the
expected invoice resolves the wait, but the live subscription is NOT
cancelled — it stays open; receipts whose tag does not match leave the
wait pending. -/
theorem C3_wait_resolution :
    (∀ (invoice : String) (events : List NEvent),
      (∀ e ∈ events, bolt11Matches invoice e = false) →
      waitForZap invoice events = { resolved := false, subOpen := true }) ∧
    (∀ (invoice : String) (pre : List NEvent) (e : NEvent) (post : List NEvent),
      bolt11Matches invoice e = true →
      (waitForZap invoice (pre ++ e :: post)).resolved = true ∧
      (waitForZap invoice (pre ++ e :: post)).subOpen = true) := by
  constructor
  · intro invoice events h
    unfold waitForZap
    induction events with
    | nil => rfl
    | cons f rest ih =>
      simp only [List.foldl_cons]
      rw [waitStep_no_match invoice _ f (h f (List.mem_cons_self _ _))]
      exact ih (fun x hx => h x (List.mem_cons_of_mem _ hx))
  · intro invoice pre e post hmatch
    unfold waitForZap
    rw [List.foldl_append, List.foldl_cons]
    set s1 := pre.foldl (waitStep invoice) { resolved := false, subOpen := true } with hs1
    have hopen : s1.subOpen = true := by
      rw [hs1]
      exact foldl_waitStep_subOpen invoice pre _
    have hres : (waitStep invoice s1 e).resolved = true := by
      unfold waitStep
      rw [hopen]
      simp [hmatch]
    constructor
    · exact foldl_waitStep_resolved_mono invoice post _ hres
    · rw [foldl_waitStep_subOpen, waitStep_subOpen, hopen]

/-- Witness for C3: no non-matching receipt resolves the wait, and a
matching receipt after a non-matching one resolves it while leaving the
subscription open. -/
theorem C3_witness :
    waitForZap "inv1" [zNoMatch] = { resolved := false, subOpen := true } ∧
    ((waitForZap "inv1" ([zNoMatch] ++ zMatch :: [])).resolved = true ∧
      (waitForZap "inv1" ([zNoMatch] ++ zMatch :: [])).subOpen = true) :=
  ⟨C3_wait_resolution.1 "inv1" [zNoMatch] (by decide),
   C3_wait_resolution.2 "inv1" [zNoMatch] zMatch [] (by decide)⟩

/-! ## Connection lifecycle (`connect`) -/

/-- A relay connection created by `relayInit(url)`; `live` tracks whether
it is currently open (`close` sets it to false). -/
structure RelayConn where
  url : String
  live : Bool
deriving Repr, DecidableEq

/-- The service's connection state: the current `this.relay` (none before
the first connect) and, for accounting, every connection already torn
down. -/
structure NostrState where
  relay : Option RelayConn
  closedConns : List RelayConn
deriving Repr, DecidableEq

/-- Embedding of `connect(url)`: if a relay exists it is closed first
(await close, its `live` flag dropped) and only then is the new
connection created and opened. -/
def connect (s : NostrState) (url : String) : NostrState :=
  match s.relay with
  | none =>
    { relay := some { url := url, live := true }, closedConns := s.closedConns }
  | some r =>
    { relay := some { url := url, live := true },
      closedConns := s.closedConns ++ [{ r with live := false }] }

/-- State at service construction: no relay yet. -/
def initState : NostrState :=
  { relay := none, closedConns := [] }

/-- All live connections of a state, past and current. -/
def liveConns (s : NostrState) : List RelayConn :=
  (s.closedConns.filter (fun r => r.live)) ++
    (match s.relay with
     | some r => if r.live then [r] else []
     | none => [])

/-- The state after a sequence of `connect` calls from construction. -/
def connectSeq (urls : List String) : NostrState :=
  urls.foldl connect initState

theorem closedConns_all_dead (urls : List String) :
    ∀ s : NostrState, (∀ r ∈ s.closedConns, r.live = false) →
      ∀ r ∈ (urls.foldl connect s).closedConns, r.live = false := by
  induction urls with
  | nil => intro s h; exact h
  | cons url rest ih =>
    intro s h
    simp only [List.foldl_cons]
    apply ih
    intro r hr
    unfold connect at hr
    cases hrel : s.relay with
    | none =>
      rw [hrel] at hr
      exact h r hr
    | some c =>
      rw [hrel] at hr
      simp only [List.mem_append, List.mem_singleton] at hr
      rcases hr with hr | rfl
      · exact h r hr
      · rfl

theorem liveConns_connect (s : NostrState) (url : String)
    (h : ∀ r ∈ s.closedConns, r.live = false) :
    liveConns (connect s url) = [{ url := url, live := true }] := by
  unfold liveConns connect
  cases hrel : s.relay with
  | none =>
    simp only []
    rw [List.filter_eq_nil_iff.mpr (by intro r hr; simp [h r hr])]
    rfl
  | some c =>
    simp only []
    rw [List.filter_eq_nil_iff.mpr ?hnil]
    · rfl
    · intro r hr
      simp only [List.mem_append, List.mem_singleton] at hr
      rcases hr with hr | rfl
      · simp [h r hr]
      · simp

/-- C5: `connect(url)` tears down any existing connection first (the old
relay is moved, closed, into the history before the new one opens), a
sequence of connects from construction leaves at most one live
connection, after any connect sequence ending in `url` exactly the
connection to `url` is live, and in particular `connect(a)` then
`connect(b)` leaves exactly one live connection, to `b`. -/
theorem C5_single_live_connection :
    (∀ (s : NostrState) (url : String),
      (connect s url).closedConns =
        s.closedConns ++ (match s.relay with
          | some r => [{ r with live := false }]
          | none => [])) ∧
    (∀ urls : List String, (liveConns (connectSeq urls)).length ≤ 1) ∧
    (∀ (urls : List String) (url : String),
      liveConns (connectSeq (urls ++ [url])) = [{ url := url, live := true }]) ∧
    (∀ a b : String, liveConns (connectSeq [a, b]) = [{ url := b, live := true }]) := by
  have hconcat : ∀ (urls : List String) (url : String),
      liveConns (connectSeq (urls ++ [url])) = [{ url := url, live := true }] := by
    intro urls url
    unfold connectSeq
    rw [List.foldl_append, List.foldl_cons, List.foldl_nil]
    exact liveConns_connect _ url
      (closedConns_all_dead urls initState (by intro r hr; exact absurd hr (List.not_mem_nil r)))
  refine ⟨?_, ?_, hconcat, ?_⟩
  · intro s url
    unfold connect
    cases s.relay <;> simp
  · intro urls
    rcases List.eq_nil_or_concat urls with rfl | ⟨init, last, rfl⟩
    · exact Nat.zero_le 1
    · rw [List.concat_eq_append, hconcat init last]
      exact Nat.le_refl 1
  · intro a b
    exact hconcat [a] b

/-! ## Publish outcomes (`publishEvent`, `deleteEvents`, `vote`) -/

/-- The relay's acknowledgment for a published event: `ok` or `failed`
with an opaque reason. -/
inductive PubOutcome where
  | ok
  | failed (reason : String)
deriving Repr, DecidableEq

/-- A call made against the relay, recorded for frame conditions. -/
inductive RelayCall where
  | publishCall (e : NEvent)
deriving Repr, DecidableEq

/-- The application namespace tag used on every built event. -/
def ZAPSTACK_TAG : String := "zapstack_test"

/-- Serialize `string[][]` tags as JSON. -/
def jsonEscapeChar (c : Char) : String :=
  if c = '"' then "\\\""
  else if c = '\\' then "\\\\"
  else if c = '\n' then "\\n"
  else if c = '\t' then "\\t"
  else if c = '\r' then "\\r"
  else String.singleton c

def jsonEscape (s : String) : String :=
  s.data.foldl (fun acc c => acc ++ jsonEscapeChar c) ""

def jsonQuote (s : String) : String :=
  "\"" ++ jsonEscape s ++ "\""

def stringifyTags (tags : List (List String)) : String :=
  "[" ++ String.intercalate ","
    (tags.map (fun t => "[" ++ String.intercalate "," (t.map jsonQuote) ++ "]")) ++ "]"

/-- Model of the external nostr-tools `finishEvent`: fills in the
author's public key, the canonical id (content hash over the signable
fields) and the signature.  The hash and signature schemes are
cryptographic primitives outside this repository; they are modeled as
deterministic tagged encodings of their inputs, which preserves the
determinism and field-sensitivity the service relies on. -/
def finishEvent (t : EventTemplate) (privKey : String) : NEvent :=
  { kind := t.kind
    created_at := t.created_at
    tags := t.tags
    content := t.content
    pubkey := "pub:" ++ privKey
    id := "hash:" ++ toString t.kind ++ ":" ++ toString t.created_at ++ ":" ++
      stringifyTags t.tags ++ ":" ++ jsonQuote t.content ++ ":" ++ privKey
    sig := "sig:" ++ privKey }

/-- Embedding of the private `publishEvent`: suspends until the relay
answers and resolves with the event id on `ok` or rejects with the
relay's reason on `failed`. -/
def publishEvent (signedEvent : NEvent) (outcome : PubOutcome) : Except String String :=
  match outcome with
  | PubOutcome.ok => Except.ok signedEvent.id
  | PubOutcome.failed reason => Except.error reason

/-- The vote direction parameter of `vote`. -/
inductive VoteType where
  | up
  | down
deriving Repr, DecidableEq

/-- Embedding of `vote`: builds and signs the kind-7 event and returns
`publishEvent`'s outcome, together with the relay calls it makes. -/
def vote (answerId answerPubKey : String) (t : VoteType) (privKey : String)
    (now : Nat) (outcome : PubOutcome) : Except String String × List RelayCall :=
  let event : EventTemplate :=
    { kind := 7, created_at := now,
      tags := [["t", ZAPSTACK_TAG], ["e", answerId], ["p", answerPubKey]],
      content := match t with
        | VoteType.up => "+"
        | VoteType.down => "-" }
  let signedEvent := finishEvent event privKey
  (publishEvent signedEvent outcome, [RelayCall.publishCall signedEvent])

/-- Embedding of `deleteEvents`: builds and publishes the kind-5 deletion
event, but attaches log-only handlers to the publish acknowledgment and
resolves with void immediately — the returned value, the relay calls
made, and the console lines logged. -/
def deleteEvents (eventId privKey : String) (now : Nat) (outcome : PubOutcome) :
    Except String Unit × List RelayCall × List String :=
  let event : EventTemplate :=
    { kind := 5, created_at := now,
      tags := [["t", ZAPSTACK_TAG], ["e", eventId]],
      content := "" }
  let signedEvent := finishEvent event privKey
  (Except.ok (), [RelayCall.publishCall signedEvent],
    match outcome with
    | PubOutcome.ok => ["deletion event sucessfully submitted"]
    | PubOutcome.failed reason => ["deletion event failed", reason])

/-- C6 counterexample: when the relay rejects the deletion event, the
`deleteEvents` call still resolves successfully and the failure is
reported only through console log lines — the caller cannot distinguish
it from success. -/
theorem C6_counterexample :
    (deleteEvents "e1" "sk" 100 (PubOutcome.failed "blocked")).1 = Except.ok () ∧
    (deleteEvents "e1" "sk" 100 (PubOutcome.failed "blocked")).2.2 =
      ["deletion event failed", "blocked"] :=
  ⟨rfl, rfl⟩

/-- C6 (amended): operations routed through `publishEvent` surface relay
rejection to the caller as a failure outcome (e.g. `vote`), but the
deletion operation does not — it resolves successfully regardless of the
relay's acknowledgment and reports failure only through a log line. -/
theorem C6_failure_surfacing :
    (∀ (e : NEvent) (r : String), publishEvent e (PubOutcome.failed r) = Except.error r) ∧
    (∀ e : NEvent, publishEvent e PubOutcome.ok = Except.ok e.id) ∧
    (∀ (answerId answerPubKey privKey : String) (t : VoteType) (now : Nat) (r : String),
      (vote answerId answerPubKey t privKey now (PubOutcome.failed r)).1 = Except.error r) ∧
    (∀ (eventId privKey : String) (now : Nat) (o : PubOutcome),
      (deleteEvents eventId privKey now o).1 = Except.ok ()) ∧
    (∀ (eventId privKey : String) (now : Nat) (r : String),
      (deleteEvents eventId privKey now (PubOutcome.failed r)).2.2 =
        ["deletion event failed", r]) := by
  refine ⟨?_, ?_, ?_, ?_, ?_⟩
  · intro e r; rfl
  · intro e; rfl
  · intro answerId answerPubKey privKey t now r; rfl
  · intro eventId privKey now o; rfl
  · intro eventId privKey now r; rfl

/-! ## Payment-request builder (`getZapRequest`) -/

/-- Model of `JSON.stringify` on the finished event object, with the
model's fixed field order. -/
def jsonStringifyEvent (e : NEvent) : String :=
  "\x7b" ++ jsonQuote "kind" ++ ":" ++ toString e.kind ++ "," ++
    jsonQuote "created_at" ++ ":" ++ toString e.created_at ++ "," ++
    jsonQuote "tags" ++ ":" ++ stringifyTags e.tags ++ "," ++
    jsonQuote "content" ++ ":" ++ jsonQuote e.content ++ "," ++
    jsonQuote "pubkey" ++ ":" ++ jsonQuote e.pubkey ++ "," ++
    jsonQuote "id" ++ ":" ++ jsonQuote e.id ++ "," ++
    jsonQuote "sig" ++ ":" ++ jsonQuote e.sig ++ "\x7d"

/-- The characters `encodeURIComponent` leaves unescaped. -/
def isUnreservedChar (c : Char) : Bool :=
  c.isAlpha || c.isDigit || c = '-' || c = '_' || c = '.' || c = '!' ||
    c = '~' || c = '*' || c = Char.ofNat 39 || c = '(' || c = ')'

/-- An uppercase hexadecimal digit. -/
def hexDigit (n : Nat) : Char :=
  if n < 10 then Char.ofNat (48 + n) else Char.ofNat (55 + n)

/-- The UTF-8 bytes of a character. -/
def utf8Bytes (c : Char) : List Nat :=
  let n := c.toNat
  if n < 128 then [n]
  else if n < 2048 then [192 + n / 64, 128 + n % 64]
  else if n < 65536 then [224 + n / 4096, 128 + (n / 64) % 64, 128 + n % 64]
  else [240 + n / 262144, 128 + (n / 4096) % 64, 128 + (n / 64) % 64, 128 + n % 64]

def percentEncodeByte (b : Nat) : String :=
  "%" ++ String.singleton (hexDigit (b / 16)) ++ String.singleton (hexDigit (b % 16))

/-- Model of the JS builtin `encodeURIComponent`: unreserved characters
kept, all others percent-encoded byte by byte of their UTF-8 form. -/
def encodeURIComponent (s : String) : String :=
  s.data.foldl (fun acc c =>
    if isUnreservedChar c then acc ++ String.singleton c
    else acc ++ String.join ((utf8Bytes c).map percentEncodeByte)) ""

/-- Embedding of `getZapRequest`: builds the kind-9734 payment-request
event, signs it, serializes it with `JSON.stringify` and URI-component
encodes it; the second component records every relay call made. -/
def getZapRequest (answerId receiverPubKey : String) (amount : Int) (privKey : String)
    (now : Nat) (relayUrl : String) : String × List RelayCall :=
  let event : EventTemplate :=
    { kind := 9734, created_at := now,
      tags := [["e", answerId], ["p", receiverPubKey],
        ["amount", toString amount], ["relays", relayUrl]],
      content := "" }
  let finishedEvent := finishEvent event privKey
  let eventString := jsonStringifyEvent finishedEvent
  (encodeURIComponent eventString, [])

/-- C7: the payment-request builder signs a kind-9734 event and returns
it JSON-serialized and URI-component-encoded, and performs no relay call
at all — in particular it never publishes the event. -/
theorem C7_zap_request_not_published :
    ∀ (answerId receiverPubKey : String) (amount : Int) (privKey : String)
      (now : Nat) (relayUrl : String),
    (getZapRequest answerId receiverPubKey amount privKey now relayUrl).2 = [] ∧
    (getZapRequest answerId receiverPubKey amount privKey now relayUrl).1 =
      encodeURIComponent (jsonStringifyEvent (finishEvent
        { kind := 9734, created_at := now,
          tags := [["e", answerId], ["p", receiverPubKey],
            ["amount", toString amount], ["relays", relayUrl]],
          content := "" } privKey)) ∧
    (finishEvent
        { kind := 9734, created_at := now,
          tags := [["e", answerId], ["p", receiverPubKey],
            ["amount", toString amount], ["relays", relayUrl]],
          content := "" } privKey).kind = 9734 := by
  intro answerId receiverPubKey amount privKey now relayUrl
  refine ⟨rfl, ?_, rfl⟩
  simp only [getZapRequest]

/-! ## Get-one queries (`getQuestion`, `getProfile`, `getAnswer`) -/

/-- Model of the member access `obj.field` on a parsed JSON value:
reading a member of `null` throws a TypeError, objects yield the field
(or JS `undefined`, modeled `none`), all other values yield `undefined`. -/
def jsMember (v : Json) (field : String) : Except String (Option Json) :=
  match v with
  | Json.null => Except.error "TypeError: cannot read properties of null"
  | Json.obj fields => Except.ok (lookupField fields field)
  | _ => Except.ok none

/-- The `Question` projection built by `getQuestion`; `title` and
`message` hold the parsed content's `name` and `about` members, which are
`undefined` (`none`) when the content object lacks them. -/
structure Question where
  id : String
  pubkey : String
  title : Option Json
  message : Option Json

/-- Embedding of `getQuestion`, with the relay's `get` response passed in
explicitly: a missing event throws the not-found error; otherwise the
content is JSON-parsed (a SyntaxError propagates) and the projection is
built from its `name` and `about` members. -/
def getQuestion (questionId : String) (response : Option NEvent) : Except String Question :=
  match response with
  | none => Except.error ("Question with id " ++ questionId ++ " not found")
  | some event =>
    match parseJson event.content with
    | none => Except.error "SyntaxError: invalid JSON in content"
    | some v =>
      match jsMember v "name" with
      | Except.error m => Except.error m
      | Except.ok name =>
        match jsMember v "about" with
        | Except.error m => Except.error m
        | Except.ok about =>
          Except.ok { id := event.id, pubkey := event.pubkey, title := name, message := about }

/-- Embedding of `getProfile`: a missing event throws the not-found
error; otherwise the parsed content is returned as the profile. -/
def getProfile (pubkey : String) (response : Option NEvent) : Except String Json :=
  match response with
  | none => Except.error ("Profile for " ++ pubkey ++ " not found")
  | some event =>
    match parseJson event.content with
    | none => Except.error "SyntaxError: invalid JSON in content"
    | some v => Except.ok v

/-- JS property assignment on an object: update in place or append. -/
def setField : List (String × Json) → String → Json → List (String × Json)
  | [], name, v => [(name, v)]
  | (k, w) :: rest, name, v =>
    if k = name then (k, v) :: rest else (k, w) :: setField rest name v

/-- Event tags as a JSON value. -/
def tagsToJson (tags : List (List String)) : Json :=
  Json.arr (tags.map (fun t => Json.arr (t.map Json.str)))

/-- Embedding of `getAnswer`: a missing event throws the not-found error;
otherwise the parsed content object receives `id` and `tags` fields from
the event (assignment on a non-object value throws in strict mode). -/
def getAnswer (answerId : String) (response : Option NEvent) : Except String Json :=
  match response with
  | none => Except.error ("Answer with id " ++ answerId ++ " not found")
  | some event =>
    match parseJson event.content with
    | none => Except.error "SyntaxError: invalid JSON in content"
    | some (Json.obj fields) =>
      Except.ok (Json.obj
        (setField (setField fields "id" (Json.str event.id)) "tags" (tagsToJson event.tags)))
    | some _ => Except.error "TypeError: cannot create property on primitive"

/-- A kind-40 event whose content is the empty JSON object. -/
def evEmptyQ : NEvent :=
  { id := "q1", pubkey := "P1", created_at := 5, kind := 40,
    tags := [["t", "zapstack_test"]], content := "\x7b\x7d", sig := "qs1" }

/-- C4 counterexample: on an event whose content is the JSON object with
no fields, `getQuestion` succeeds yet returns a partially-populated
value — its title and message are both `undefined`.  This refutes the
claim that a successful get-one call never returns a partially-populated
value. -/
theorem C4_counterexample :
    getQuestion "q1" (some evEmptyQ) =
      Except.ok { id := "q1", pubkey := "P1", title := none, message := none } := rfl

/-- C4 (amended): every get-one-style call (`getQuestion`, `getProfile`,
`getAnswer`) fails with a NotFound-style error when the relay returns
zero events for its filter; but a successful call can return a partially
populated value when the event content parses to an object lacking the
expected fields. -/
theorem C4_not_found :
    (∀ qid : String,
      getQuestion qid none = Except.error ("Question with id " ++ qid ++ " not found")) ∧
    (∀ pk : String,
      getProfile pk none = Except.error ("Profile for " ++ pk ++ " not found")) ∧
    (∀ aid : String,
      getAnswer aid none = Except.error ("Answer with id " ++ aid ++ " not found")) ∧
    getQuestion "q1" (some evEmptyQ) =
      Except.ok { id := "q1", pubkey := "P1", title := none, message := none } := by
  refine ⟨?_, ?_, ?_, rfl⟩
  · intro qid; rfl
  · intro pk; rfl
  · intro aid; rfl

/-! ## Answer listing (`listAnswers`) -/

/-- Whether an event carries any tag whose first element is "p"
(`event.tags.some(subArr => subArr[0] === 'p')`). -/
def hasPTag (event : NEvent) : Bool :=
  event.tags.any (fun subArr => subArr.head? == some "p")

/-- The `Answer` built for a kept event: the spread of the event plus
`message` (the content) and a zero vote. -/
structure AnswerS where
  id : String
  pubkey : String
  created_at : Nat
  kind : Nat
  tags : List (List String)
  content : String
  sig : String
  message : String
  vote : Int
deriving Repr, DecidableEq

def answerOfEvent (event : NEvent) : AnswerS :=
  { id := event.id, pubkey := event.pubkey, created_at := event.created_at,
    kind := event.kind, tags := event.tags, content := event.content,
    sig := event.sig, message := event.content, vote := 0 }

/-- Embedding of `listAnswers`, with the relay's kind-42 `list` response
passed in explicitly: the flatMap keeps an event only when it has no "p"
tag, projecting it to an `Answer`. -/
def listAnswers : List NEvent → List AnswerS
  | [] => []
  | event :: rest =>
    (if hasPTag event then [] else [answerOfEvent event]) ++ listAnswers rest

theorem listAnswers_eq_filter_map (events : List NEvent) :
    listAnswers events = (events.filter (fun e => !(hasPTag e))).map answerOfEvent := by
  induction events with
  | nil => rfl
  | cons e rest ih =>
    by_cases h : hasPTag e
    · simp [listAnswers, List.filter_cons, h, ih]
    · simp [listAnswers, List.filter_cons, h, ih]

/-- C10: `listAnswers` returns exactly the relay-returned events with no
"p" (mention) tag — every event carrying one is excluded client-side —
and each returned answer's message equals the event content it was built
from. -/
theorem C10_list_answers :
    (∀ events : List NEvent,
      listAnswers events = (events.filter (fun e => !(hasPTag e))).map answerOfEvent) ∧
    (∀ events : List NEvent,
      ((listAnswers events).all (fun a => a.message == a.content)) = true) := by
  refine ⟨listAnswers_eq_filter_map, ?_⟩
  intro events
  rw [listAnswers_eq_filter_map]
  apply List.all_eq_true.mpr
  intro a ha
  obtain ⟨e, _, rfl⟩ := List.mem_map.mp ha
  simp [answerOfEvent]
